import Mathlib

/-!
Shallow embedding of the Framr image-border pipeline.

The definitions below are translated from the TypeScript sources:
  src/utils/imageProcessing.ts   (geometry, filename derivation)
  src/workers/imageProcessor.worker.ts (duplicate geometry, mime resolution)
  src/utils/colorUtils.ts        (hex validation)
  src/utils/downloadUtils.ts     (zip filename de-duplication)
  src/utils/imageUtils.ts        (memory warning heuristic)
  useImageProcessor hook         (batch orchestration loop)

JavaScript numbers are modelled as rationals where fractional arithmetic
matters, and Math.round as the floor of x + 1/2 (round half toward plus
infinity, which is the ECMAScript semantics for finite values).
-/

namespace Framr

/-- ECMAScript Math.round on finite values: floor of x + 1/2. -/
def jround (q : ℚ) : ℤ := Rat.floor (q + 1/2)

/-! ### Filename utilities (imageProcessing.ts / imageProcessor.worker.ts) -/

/-- Splits a character list at the last dot, mirroring the regexes
\.([^.]+)$ (extension capture) and \.[^.]+$ (strip).  Returns
(characters before the last dot, nonempty characters after it), or
none when the name has no dot or ends in a dot. -/
def splitLastDot (cs : List Char) : Option (List Char × List Char) :=
  let rev := cs.reverse
  let extRev := rev.takeWhile (fun c => c != '.')
  let rest := rev.dropWhile (fun c => c != '.')
  match rest with
  | '.' :: baseRev => if extRev.isEmpty then none else some (baseRev.reverse, extRev.reverse)
  | _ => none

/-- getFileExtension: part after the last dot, lowercased; defaults to jpg. -/
def getFileExtension (filename : String) : String :=
  match splitLastDot filename.data with
  | some (_, ext) => String.mk (ext.map Char.toLower)
  | none => "jpg"

/-- originalName.replace of the trailing dot-extension by the empty string. -/
def stripExtension (name : String) : String :=
  match splitLastDot name.data with
  | some (base, _) => String.mk base
  | none => name

/-- The trailing ".ext" of a filename, original case, or the empty string
(downloadUtils.ts: filename.match of a trailing dot-extension, or ''). -/
def extensionWithDot (name : String) : String :=
  match splitLastDot name.data with
  | some (_, ext) => String.mk ('.' :: ext)
  | none => ""

/-- getMimeType (imageProcessing.ts, worker, imageUtils.ts). -/
def getMimeType (format : String) : String :=
  let f := String.mk (format.data.map Char.toLower)
  if f = "jpg" then "image/jpeg"
  else if f = "jpeg" then "image/jpeg"
  else if f = "png" then "image/png"
  else if f = "webp" then "image/webp"
  else if f = "tiff" then "image/tiff"
  else if f = "tif" then "image/tiff"
  else "image/jpeg"

/-- The extension chosen by generateOutputFilename for a given source name
and output format string (worker version; the imageProcessing.ts version
is identical after extracting the format string from OutputSettings). -/
def resolvedExtension (originalName outputFormat : String) : String :=
  if outputFormat = "original" then getFileExtension originalName
  else if outputFormat = "jpeg" then "jpg"
  else outputFormat

/-- generateOutputFilename (imageProcessor.worker.ts lines 125-139). -/
def generateOutputFilename (originalName outputFormat : String) : String :=
  stripExtension originalName ++ "_bordered." ++ resolvedExtension originalName outputFormat

/-- The mime type the worker encodes with (imageProcessor.worker.ts lines
194-198); for format original the hook passes the whole source filename as
originalFormat. -/
def resolveMimeType (originalFormat outputFormat : String) : String :=
  if outputFormat = "original" then getMimeType (getFileExtension originalFormat)
  else getMimeType outputFormat

/-! ### Color utilities (colorUtils.ts) -/

/-- Character class [A-Fa-f0-9]. -/
def isHexDigit (c : Char) : Bool :=
  ('0' ≤ c && c ≤ '9') || ('a' ≤ c && c ≤ 'f') || ('A' ≤ c && c ≤ 'F')

/-- isValidHex (colorUtils.ts line 19): test of the anchored regex
requiring a leading hash followed by exactly 6 or exactly 3 hex digits. -/
def isValidHex (color : String) : Bool :=
  match color.data with
  | c :: rest =>
    c == '#' && (rest.length == 6 || rest.length == 3) && rest.all isHexDigit
  | [] => false

/-! ### Geometry (imageProcessing.ts lines 30-99, duplicated in the worker) -/

inductive WidthUnit
  | px
  | percent
deriving DecidableEq, Repr, BEq

structure BorderSettings where
  width : ℚ
  widthUnit : WidthUnit
  color : String
  aspectAware : Bool
deriving DecidableEq, Repr

structure Insets where
  top : ℚ
  right : ℚ
  bottom : ℚ
  left : ℚ
deriving DecidableEq, Repr

/-- calculateBorderSize (imageProcessing.ts lines 30-60).  The source local
aspectRatio is named aspect here; its value is imageWidth / imageHeight. -/
def calculateBorderSize (imageWidth imageHeight : ℚ)
    (borderSettings : BorderSettings) : Insets :=
  let borderSize : ℚ :=
    if borderSettings.widthUnit = WidthUnit.percent then
      (jround (min imageWidth imageHeight * (borderSettings.width / 100)) : ℚ)
    else borderSettings.width
  if borderSettings.aspectAware then
    let aspect := imageWidth / imageHeight
    if 1 < aspect then
      { top := borderSize, right := (jround (borderSize * aspect) : ℚ),
        bottom := borderSize, left := (jround (borderSize * aspect) : ℚ) }
    else if aspect < 1 then
      { top := (jround (borderSize / aspect) : ℚ), right := borderSize,
        bottom := (jround (borderSize / aspect) : ℚ), left := borderSize }
    else
      { top := borderSize, right := borderSize,
        bottom := borderSize, left := borderSize }
  else
    { top := borderSize, right := borderSize,
      bottom := borderSize, left := borderSize }

structure ResizeSettings where
  enabled : Bool
  width : Option ℚ
  height : Option ℚ
  unit : WidthUnit
  maintainAspect : Bool
deriving DecidableEq, Repr

/-- JavaScript truthiness of a number-or-undefined value: undefined and 0
are falsy, every other number is truthy. -/
def truthy : Option ℚ → Bool
  | none => false
  | some x => x != 0

/-- JavaScript value-or-default: v or d when v is falsy. -/
def orDefault (v : Option ℚ) (d : ℚ) : ℚ :=
  if truthy v then v.getD 0 else d

/-- Percent-to-pixel conversion of one target (imageProcessing.ts lines
74-77): a truthy target in percent unit becomes
Math.round of original times target over 100, anything else is kept. -/
def convertTarget (original : ℚ) (isPercent : Bool) (target : Option ℚ) : Option ℚ :=
  if isPercent && truthy target then
    some (jround (original * (target.getD 0 / 100)) : ℚ)
  else target

/-- The maintainAspect block (imageProcessing.ts lines 79-93) applied to
the already percent-converted targets.  Source locals: aspectRatio is
aspect, widthRatio and heightRatio are widthScale and heightScale, the
applied ratio is scale. -/
def applyAspect (originalWidth originalHeight : ℚ) (maintainAspect : Bool)
    (targetWidth targetHeight : Option ℚ) : Option ℚ × Option ℚ :=
  if maintainAspect then
    let aspect := originalWidth / originalHeight
    if truthy targetWidth && !truthy targetHeight then
      (targetWidth, some (jround (targetWidth.getD 0 / aspect) : ℚ))
    else if truthy targetHeight && !truthy targetWidth then
      (some (jround (targetHeight.getD 0 * aspect) : ℚ), targetHeight)
    else if truthy targetWidth && truthy targetHeight then
      let widthScale := targetWidth.getD 0 / originalWidth
      let heightScale := targetHeight.getD 0 / originalHeight
      let scale := min widthScale heightScale
      (some (jround (originalWidth * scale) : ℚ),
       some (jround (originalHeight * scale) : ℚ))
    else (targetWidth, targetHeight)
  else (targetWidth, targetHeight)

/-- calculateOutputDimensions (imageProcessing.ts lines 62-99): echo the
originals when resize is disabled, otherwise convert percent targets,
apply the maintainAspect block, and fall back to the originals for falsy
targets. -/
def calculateOutputDimensions (originalWidth originalHeight : ℚ)
    (resizeSettings : ResizeSettings) : ℚ × ℚ :=
  if !resizeSettings.enabled then (originalWidth, originalHeight)
  else
    let isPercent := resizeSettings.unit == WidthUnit.percent
    let targetWidth := convertTarget originalWidth isPercent resizeSettings.width
    let targetHeight := convertTarget originalHeight isPercent resizeSettings.height
    let targets := applyAspect originalWidth originalHeight
      resizeSettings.maintainAspect targetWidth targetHeight
    (orDefault targets.1 originalWidth, orDefault targets.2 originalHeight)

structure OutputSettings where
  format : String
  quality : ℚ
deriving DecidableEq, Repr

structure ProcessingConfig where
  border : BorderSettings
  resize : ResizeSettings
  output : OutputSettings
deriving DecidableEq, Repr

/-- Destination canvas size computed by the worker before allocating the
OffscreenCanvas (imageProcessor.worker.ts lines 152-161). -/
def canvasDimensions (bitmapWidth bitmapHeight : ℚ)
    (config : ProcessingConfig) : ℚ × ℚ :=
  let resized := calculateOutputDimensions bitmapWidth bitmapHeight config.resize
  let b := calculateBorderSize resized.1 resized.2 config.border
  (resized.1 + b.left + b.right, resized.2 + b.top + b.bottom)

/-! ### Queue items and the memory heuristic (imageUtils.ts) -/

structure ImageFile where
  id : String
  name : String
  originalWidth : ℕ
  originalHeight : ℕ
deriving DecidableEq, Repr

/-- checkMemoryWarning (imageUtils.ts lines 249-256): sum of pixel counts,
times 4 bytes per pixel, times 2 copies, compared against 500 MiB. -/
def checkMemoryWarning (images : List ImageFile) : Bool :=
  let totalPixels := images.foldl
    (fun sum img => sum + img.originalWidth * img.originalHeight) 0
  decide (500 * 1024 * 1024 < totalPixels * 4 * 2)

/-! ### Batch orchestration (useImageProcessor hook)

The hook loop is modelled as a function from the item list, the worker
outcome per index (the terminal message the per-item await settles with,
covering decode failures and worker error messages alike), and the value
the cancelled flag has when the loop tests it before item i.  It returns
the accumulated results plus an event trace recording, per item, the
decode step, the postMessage dispatch, and the terminal callback
(onImageComplete or onImageError). -/

structure ProcessingResult where
  imageId : String
  blob : ℕ
  filename : String
deriving DecidableEq, Repr

inductive ItemOutcome
  | ok (result : ProcessingResult)
  | err (message : String)
deriving DecidableEq, Repr

inductive TraceEvent
  | decode (index : ℕ)
  | dispatch (index : ℕ)
  | itemDone (index : ℕ)
  | itemError (index : ℕ) (message : String)
deriving DecidableEq, Repr

def isDoneEvent : TraceEvent → Bool
  | TraceEvent.itemDone _ => true
  | _ => false

def isErrorEvent : TraceEvent → Bool
  | TraceEvent.itemError _ _ => true
  | _ => false

def eventIndex : TraceEvent → ℕ
  | TraceEvent.decode i => i
  | TraceEvent.dispatch i => i
  | TraceEvent.itemDone i => i
  | TraceEvent.itemError i _ => i

/-- The for-loop of processImages (hook lines 92-151): before each item the
cancelled flag is tested; otherwise the item is decoded, dispatched, and
its terminal message appends a result and fires onImageComplete, or fires
onImageError without aborting the loop. -/
def processImagesGo (outcome : ℕ → ItemOutcome) (cancelled : ℕ → Bool) :
    List ImageFile → ℕ → List ProcessingResult × List TraceEvent
  | [], _ => ([], [])
  | _img :: rest, i =>
    if cancelled i then ([], [])
    else
      match outcome i with
      | ItemOutcome.ok res =>
        let next := processImagesGo outcome cancelled rest (i + 1)
        (res :: next.1,
          TraceEvent.decode i :: TraceEvent.dispatch i ::
            TraceEvent.itemDone i :: next.2)
      | ItemOutcome.err m =>
        let next := processImagesGo outcome cancelled rest (i + 1)
        (next.1,
          TraceEvent.decode i :: TraceEvent.dispatch i ::
            TraceEvent.itemError i m :: next.2)

/-- processImages (hook lines 68-163): empty input is a no-op returning the
empty result list; the config is forwarded to the worker with every item
and never inspected by the loop itself. -/
def processImages (images : List ImageFile) (_config : ProcessingConfig)
    (outcome : ℕ → ItemOutcome) (cancelled : ℕ → Bool) :
    List ProcessingResult × List TraceEvent :=
  if images.isEmpty then ([], [])
  else processImagesGo outcome cancelled images 0

/-! ### Zip filename de-duplication (downloadUtils.ts lines 9-31) -/

/-- The candidate built inside the while loop: base name of the original,
an underscore, the counter, then the original extension with its dot. -/
def renameWith (original : String) (counter : ℕ) : String :=
  stripExtension original ++ "_" ++ toString counter ++ extensionWithDot original

/-- The while loop of downloadAsZip, fuel-bounded: as long as the current
candidate is already used, move to the next counter.  The fuel
usedNames-length plus one suffices for every reachable search. -/
def resolveGo (used : List String) (original : String) :
    String → ℕ → ℕ → String
  | filename, _, 0 => filename
  | filename, counter, fuel + 1 =>
    if filename ∈ used then
      resolveGo used original (renameWith original counter) (counter + 1) fuel
    else filename

def resolveName (used : List String) (original : String) : String :=
  resolveGo used original original 1 (used.length + 1)

/-- The for-loop of downloadAsZip over the ordered results: each filename
is resolved against the set of names already assigned, then added to it. -/
def assignNames (used : List String) : List String → List String
  | [] => []
  | f :: rest =>
    let name := resolveName used f
    name :: assignNames (name :: used) rest

/-! ### Concrete data used in counterexamples and witnesses -/

/-- A configuration whose resize target is a negative pixel width: the
implied output width, and hence the destination canvas width, is
negative. -/
def invalidGeometryConfig : ProcessingConfig :=
  { border := { width := 0, widthUnit := WidthUnit.px, color := "#FFFFFF",
                aspectAware := false },
    resize := { enabled := true, width := some (-100), height := none,
                unit := WidthUnit.px, maintainAspect := false },
    output := { format := "png", quality := 90 } }

/-- An ordinary configuration for orchestration instances. -/
def plainConfig : ProcessingConfig :=
  { border := { width := 5, widthUnit := WidthUnit.percent, color := "#FFFFFF",
                aspectAware := false },
    resize := { enabled := false, width := none, height := none,
                unit := WidthUnit.px, maintainAspect := true },
    output := { format := "jpeg", quality := 95 } }

/-- A resize specification with both targets given, used in instances. -/
def resizeBoth : ResizeSettings :=
  { enabled := true, width := some 7, height := some 1500,
    unit := WidthUnit.px, maintainAspect := true }

/-- A small queue item; the orchestration model never reads its fields. -/
def sampleItem : ImageFile :=
  { id := "img", name := "a.png", originalWidth := 10, originalHeight := 10 }

/-- A simple per-index result used to instantiate outcome oracles. -/
def sampleResult (i : ℕ) : ProcessingResult :=
  { imageId := "img", blob := i, filename := "a_bordered.jpg" }

end Framr

/-!
## Theorems

Helper lemmas first, then one theorem per claim (with witnesses and
counterexamples where required).
-/

namespace Framr

theorem jround_eq_floor (q : ℚ) : jround q = ⌊q + 1/2⌋ := by
  rw [jround, Rat.floor_def', ← Rat.floor_def]

theorem px_beq_percent : (WidthUnit.px == WidthUnit.percent) = false := rfl

theorem percent_beq_percent : (WidthUnit.percent == WidthUnit.percent) = true := rfl

theorem truthy_some (x : ℚ) : truthy (some x) = !(x == 0) := rfl

theorem truthy_none : truthy none = false := rfl

theorem orDefault_some (x d : ℚ) : orDefault (some x) d = if x = 0 then d else x := by
  by_cases hx : x = 0 <;> simp [orDefault, truthy, hx]

theorem orDefault_none (d : ℚ) : orDefault none d = d := rfl

theorem orDefault_ne_zero (t : Option ℚ) (d : ℚ) (hd : d ≠ 0) :
    orDefault t d ≠ 0 := by
  cases t with
  | none => simpa [orDefault, truthy] using hd
  | some x =>
    by_cases hx : x = 0 <;> simp [orDefault, truthy, hx, hd]

/-- Claim C1, counterexample.  With output format original and a source
file whose own extension is .jpeg, the worker encodes as image/jpeg yet
the generated filename keeps the extension jpeg, not jpg. -/
theorem jpeg_source_keeps_jpeg_extension :
    resolveMimeType "photo.jpeg" "original" = "image/jpeg" ∧
    generateOutputFilename "photo.jpeg" "original" = "photo_bordered.jpeg" ∧
    "photo_bordered.jpeg" ≠ "photo_bordered.jpg" := by
  refine ⟨by decide, by decide, by decide⟩

/-- Claim C1, amended.  The generated output filename is the base name
with the trailing extension stripped, then _bordered. and the resolved
extension; an explicit jpeg format resolves to jpg (never jpeg) and any
other explicit format resolves to itself, but the original format keeps
the source file's own lowercased extension, so a .jpeg source stays
jpeg. -/
theorem generateOutputFilename_characterization (name fmt : String) :
    generateOutputFilename name fmt =
      stripExtension name ++ "_bordered." ++ resolvedExtension name fmt ∧
    resolvedExtension name "jpeg" = "jpg" ∧
    resolvedExtension name "original" = getFileExtension name ∧
    resolvedExtension name "png" = "png" ∧
    resolvedExtension name "webp" = "webp" ∧
    generateOutputFilename "photo.jpeg" "jpeg" = "photo_bordered.jpg" := by
  exact ⟨rfl, rfl, rfl, rfl, rfl, by decide⟩

/-- Claim C3, counterexample.  isValidHex rejects a six-digit hex string
without the leading hash, which the claim says is accepted. -/
theorem isValidHex_requires_hash :
    isValidHex "AABBCC" = false ∧ isValidHex "#AABBCC" = true := by
  refine ⟨by decide, by decide⟩

/-- Claim C3, amended.  isValidHex holds exactly on strings made of a
mandatory leading hash followed by exactly 6 or exactly 3 hexadecimal
digits; the hash is not optional. -/
theorem isValidHex_characterization (s : String) :
    isValidHex s = true ↔
      ∃ rest : List Char, s.data = '#' :: rest ∧
        (rest.length = 6 ∨ rest.length = 3) ∧ ∀ c ∈ rest, isHexDigit c = true := by
  obtain ⟨data⟩ := s
  cases data with
  | nil => simp [isValidHex]
  | cons c rest =>
    constructor
    · intro hv
      simp only [isValidHex, Bool.and_eq_true, Bool.or_eq_true, beq_iff_eq,
        List.all_eq_true] at hv
      obtain ⟨⟨h1, h2⟩, h3⟩ := hv
      exact ⟨rest, by simp [h1], h2, h3⟩
    · rintro ⟨r, hr, hlen, hall⟩
      have hr2 : c :: rest = '#' :: r := by simpa using hr
      have hc : c = '#' := by injection hr2
      have hrest : rest = r := by injection hr2
      subst hc; subst hrest
      simp only [isValidHex, Bool.and_eq_true, Bool.or_eq_true, beq_iff_eq,
        List.all_eq_true]
      exact ⟨⟨by simp, hlen⟩, hall⟩

/-- Claim C8, counterexample.  The name x_1.jpg occurs only once in the
input (its first occurrence is at index 2), yet it is renamed because an
earlier rename already produced x_1.jpg; the claim promises every first
occurrence is kept unchanged. -/
theorem dedup_renames_a_first_occurrence :
    assignNames [] ["x.jpg", "x.jpg", "x_1.jpg"] =
      ["x.jpg", "x_1.jpg", "x_1_1.jpg"] ∧
    List.count "x_1.jpg" ["x.jpg", "x.jpg"] = 0 ∧
    "x_1_1.jpg" ≠ "x_1.jpg" := by
  refine ⟨by decide, by decide, by decide⟩

theorem resolveGo_reaches (used : List String) (f : String) (N : ℕ)
    (hfree : renameWith f N ∉ used) :
    ∀ fuel j, 1 ≤ j → j ≤ N →
      (∀ m, j ≤ m → m < N → renameWith f m ∈ used) →
      N - j ≤ fuel →
      resolveGo used f (renameWith f j) (j + 1) fuel = renameWith f N := by
  intro fuel
  induction fuel with
  | zero =>
    intro j h1 hjN hmem hfuel
    have hj : j = N := by omega
    subst hj
    rfl
  | succ g ih =>
    intro j h1 hjN hmem hfuel
    by_cases hjeq : j = N
    · subst hjeq
      simp [resolveGo, hfree]
    · have hjlt : j < N := lt_of_le_of_ne hjN hjeq
      have hin : renameWith f j ∈ used := hmem j le_rfl hjlt
      rw [resolveGo, if_pos hin]
      exact ih (j + 1) (by omega) (by omega)
        (fun m hm1 hm2 => hmem m (by omega) hm2) (by omega)

/-- Claim C8, amended.  De-duplication keeps a filename unchanged exactly
when it differs from every name already assigned to earlier results
(which is weaker than keeping every first occurrence); a colliding
filename is renamed to its base with _N inserted before the extension,
for the least N from 1 upward whose candidate is not already assigned;
in particular two results named a_bordered.jpg come out as
a_bordered.jpg and a_bordered_1.jpg. -/
theorem resolveName_least_unused (used : List String) (f : String) (N : ℕ)
    (h1 : 1 ≤ N) (hN : N ≤ used.length + 1) (hmem : f ∈ used)
    (hbelow : ∀ m, 1 ≤ m → m < N → renameWith f m ∈ used)
    (hfree : renameWith f N ∉ used) :
    resolveName used f = renameWith f N ∧
    (∀ g : String, g ∉ used → resolveName used g = g) ∧
    assignNames [] ["a_bordered.jpg", "a_bordered.jpg"] =
      ["a_bordered.jpg", "a_bordered_1.jpg"] := by
  refine ⟨?_, ?_, by decide⟩
  · rw [resolveName, resolveGo, if_pos hmem]
    exact resolveGo_reaches used f N hfree used.length 1 le_rfl h1
      (fun m hm1 hm2 => hbelow m hm1 hm2) (by omega)
  · intro g hg
    rw [resolveName, resolveGo, if_neg hg]

/-- Witness for the C8 theorem at a concrete input. -/
theorem resolveName_least_unused_witness :
    resolveName ["a.jpg", "a_1.jpg"] "a.jpg" = "a_2.jpg" := by
  have h := (resolveName_least_unused ["a.jpg", "a_1.jpg"] "a.jpg" 2
    (by decide) (by decide) (by decide)
    (by intro m hm1 hm2
        have hm : m = 1 := by omega
        subst hm
        decide)
    (by decide)).1
  rw [h]
  decide

theorem foldl_pixel_sum (l : List ImageFile) (n : ℕ) :
    l.foldl (fun sum img => sum + img.originalWidth * img.originalHeight) n =
      n + (l.map fun img => img.originalWidth * img.originalHeight).sum := by
  induction l generalizing n with
  | nil => simp
  | cons a t ih => simp [ih]; ring

/-- Claim C9.  The memory-warning predicate holds exactly when the summed
estimate of width times height times 4 bytes times 2 copies strictly
exceeds 500 MiB.  (It is a pure predicate; the only caller displays a
banner and never gates processing on it.) -/
theorem checkMemoryWarning_iff (images : List ImageFile) :
    checkMemoryWarning images = true ↔
      500 * 1024 * 1024 <
        (images.map fun img => img.originalWidth * img.originalHeight * 4 * 2).sum := by
  have hsum : (images.map fun img => img.originalWidth * img.originalHeight * 4 * 2).sum
      = (images.map fun img => img.originalWidth * img.originalHeight).sum * 4 * 2 := by
    induction images with
    | nil => simp
    | cons a t ih => simp [ih]; ring
  rw [checkMemoryWarning, foldl_pixel_sum, hsum]
  simp

end Framr

namespace Framr

theorem processImagesGo_decode_dispatch_mem (outcome : ℕ → ItemOutcome) :
    ∀ (l : List ImageFile) (s i : ℕ), i < l.length →
      TraceEvent.decode (s + i) ∈ (processImagesGo outcome (fun _ => false) l s).2 ∧
      TraceEvent.dispatch (s + i) ∈ (processImagesGo outcome (fun _ => false) l s).2 := by
  intro l
  induction l with
  | nil => intro s i h; simp at h
  | cons a t ih =>
    intro s i h
    cases i with
    | zero =>
      cases ho : outcome s <;> simp [processImagesGo, ho]
    | succ j =>
      have hj : j < t.length := by simpa using h
      have hrec := ih (s + 1) j hj
      have hidx : s + (j + 1) = (s + 1) + j := by omega
      rw [hidx]
      cases ho : outcome s <;> simp [processImagesGo, ho] <;>
        exact ⟨Or.inr hrec.1, Or.inr hrec.2⟩

/-- Claim C2, counterexample.  A configuration implying a negative output
width is not rejected: the single item is decoded and dispatched to the
worker, whose failure comes back as a per-item error event, not as a
configuration error raised before dispatch. -/
theorem invalid_geometry_reaches_worker :
    (canvasDimensions 100 100 invalidGeometryConfig).1 < 0 ∧
    (processImages [sampleItem] invalidGeometryConfig
        (fun _ => ItemOutcome.err "canvas failure") (fun _ => false)).2 =
      [TraceEvent.decode 0, TraceEvent.dispatch 0,
        TraceEvent.itemError 0 "canvas failure"] := by
  constructor
  · norm_num [canvasDimensions, calculateOutputDimensions, calculateBorderSize,
      convertTarget, applyAspect, orDefault, truthy_some, truthy_none, px_beq_percent,
      jround_eq_floor, bne_iff_ne, invalidGeometryConfig]
  · rfl

/-- Claim C2, amended.  The batch runner performs no configuration-level
geometry validation at all: whatever the configuration (including one
implying non-positive output dimensions), every queued item is decoded
and dispatched to the worker; invalid geometry can only surface later as
an ordinary per-item error. -/
theorem processImages_never_rejects_config (images : List ImageFile)
    (config : ProcessingConfig) (outcome : ℕ → ItemOutcome) (i : ℕ)
    (hi : i < images.length) :
    TraceEvent.decode i ∈ (processImages images config outcome (fun _ => false)).2 ∧
    TraceEvent.dispatch i ∈ (processImages images config outcome (fun _ => false)).2 := by
  have hne : images.isEmpty = false := by
    cases images with
    | nil => simp at hi
    | cons a t => rfl
  have h := processImagesGo_decode_dispatch_mem outcome images 0 i hi
  rw [processImages, hne]
  simpa using h

/-- Witness for the C2 theorem at a concrete input. -/
theorem processImages_never_rejects_config_witness :
    TraceEvent.decode 0 ∈ (processImages [sampleItem] invalidGeometryConfig
        (fun _ => ItemOutcome.err "x") (fun _ => false)).2 ∧
    TraceEvent.dispatch 0 ∈ (processImages [sampleItem] invalidGeometryConfig
        (fun _ => ItemOutcome.err "x") (fun _ => false)).2 :=
  processImages_never_rejects_config [sampleItem] invalidGeometryConfig
    (fun _ => ItemOutcome.err "x") 0 (by decide)

theorem range_map_shift (n s : ℕ) :
    (List.range (n + 1)).map (s + ·) = s :: (List.range n).map ((s + 1) + ·) := by
  rw [List.range_succ_eq_map, List.map_cons, List.map_map]
  refine congrArg₂ List.cons (by omega) ?_
  apply List.map_congr_left
  intro x _
  simp [Function.comp]
  omega

theorem filter_flatMap {α β : Type} (l : List α) (f : α → List β) (p : β → Bool) :
    (l.flatMap f).filter p = l.flatMap (fun a => (f a).filter p) := by
  induction l with
  | nil => rfl
  | cons a t ih => simp [List.flatMap_cons, List.filter_append, ih]

theorem flatMap_nil_of {β : Type} (l : List ℕ) (g : ℕ → List β)
    (h : ∀ x ∈ l, g x = []) : l.flatMap g = [] := by
  induction l with
  | nil => rfl
  | cons a t ih =>
    rw [List.flatMap_cons, h a (by simp), ih (fun x hx => h x (by simp [hx]))]
    rfl

theorem flatMap_single {β : Type} (N k : ℕ) (hk : k < N) (g : ℕ → List β)
    (hg : ∀ i, i ≠ k → g i = []) :
    (List.range N).flatMap g = g k := by
  induction N with
  | zero => omega
  | succ n ih =>
    rw [List.range_succ, List.flatMap_append]
    by_cases hkn : k = n
    · subst hkn
      rw [flatMap_nil_of _ g
        (fun x hx => hg x (by simp [List.mem_range] at hx; omega))]
      simp [List.flatMap_cons]
    · have hk2 : k < n := by omega
      have hn : g n = [] := hg n (fun hcon => hkn hcon.symm)
      simp [ih hk2, List.flatMap_cons, hn]

theorem flatMap_filter_map {α β : Type} (l : List α) (p : α → Bool) (f : α → β) :
    (l.flatMap fun a => if p a then [f a] else []) = (l.filter p).map f := by
  induction l with
  | nil => rfl
  | cons a t ih =>
    by_cases hp : p a <;> simp [List.flatMap_cons, List.filter_cons, hp, ih]

theorem length_filter_ne_range (N k : ℕ) (hk : k < N) :
    ((List.range N).filter (fun i => i != k)).length = N - 1 := by
  induction N with
  | zero => omega
  | succ n ih =>
    rw [List.range_succ, List.filter_append, List.length_append]
    by_cases hkn : k = n
    · subst hkn
      have hself : (List.range k).filter (fun i => i != k) = List.range k := by
        apply List.filter_eq_self.mpr
        intro x hx
        simp only [List.mem_range] at hx
        simp only [bne_iff_ne, ne_eq, decide_eq_true_eq]
        omega
      simp [hself]
    · have hk2 : k < n := by omega
      have hne2 : (n != k) = true := by
        simp only [bne_iff_ne, ne_eq, decide_eq_true_eq]
        exact fun hcon => hkn hcon.symm
      simp [ih hk2, hne2]
      omega

theorem processImagesGo_single_error (res : ℕ → ProcessingResult) (msg : String) (k : ℕ) :
    ∀ (l : List ImageFile) (s : ℕ),
      processImagesGo (fun i => if i = k then ItemOutcome.err msg else ItemOutcome.ok (res i))
          (fun _ => false) l s =
        ((((List.range l.length).map (s + ·)).filter (fun i => i != k)).map res,
          ((List.range l.length).map (s + ·)).flatMap (fun i =>
            TraceEvent.decode i :: TraceEvent.dispatch i ::
              (if i = k then [TraceEvent.itemError i msg] else [TraceEvent.itemDone i]))) := by
  intro l
  induction l with
  | nil => intro s; simp [processImagesGo]
  | cons a t ih =>
    intro s
    rw [List.length_cons, range_map_shift]
    by_cases hs : s = k
    · subst hs
      simp [processImagesGo, ih (s + 1), List.flatMap_cons, List.filter_cons]
    · simp [processImagesGo, hs, ih (s + 1), List.flatMap_cons, List.filter_cons]

/-- Claim C4.  In a batch where exactly the item at position k fails and
no cancellation occurs, the run yields the results of all other items in
submission order (hence one fewer result than items), fires the error
callback exactly once, for item k, and fires the done callback exactly
once for every other item, continuing past k. -/
theorem processImages_single_failure (images : List ImageFile)
    (config : ProcessingConfig) (res : ℕ → ProcessingResult) (msg : String) (k : ℕ)
    (hk : k < images.length) :
    (processImages images config
        (fun i => if i = k then ItemOutcome.err msg else ItemOutcome.ok (res i))
        (fun _ => false)).1 =
      ((List.range images.length).filter (fun i => i != k)).map res ∧
    (processImages images config
        (fun i => if i = k then ItemOutcome.err msg else ItemOutcome.ok (res i))
        (fun _ => false)).1.length = images.length - 1 ∧
    (processImages images config
        (fun i => if i = k then ItemOutcome.err msg else ItemOutcome.ok (res i))
        (fun _ => false)).2.filter isErrorEvent = [TraceEvent.itemError k msg] ∧
    (processImages images config
        (fun i => if i = k then ItemOutcome.err msg else ItemOutcome.ok (res i))
        (fun _ => false)).2.filter isDoneEvent =
      ((List.range images.length).filter (fun i => i != k)).map TraceEvent.itemDone := by
  have hne : images.isEmpty = false := by
    cases images with
    | nil => simp at hk
    | cons a t => rfl
  have hzero : (List.range images.length).map (fun i => 0 + i) = List.range images.length := by
    simp
  have hrun : processImages images config
      (fun i => if i = k then ItemOutcome.err msg else ItemOutcome.ok (res i))
      (fun _ => false) =
      (((List.range images.length).filter (fun i => i != k)).map res,
        (List.range images.length).flatMap (fun i =>
          TraceEvent.decode i :: TraceEvent.dispatch i ::
            (if i = k then [TraceEvent.itemError i msg] else [TraceEvent.itemDone i]))) := by
    simp only [processImages, hne, Bool.false_eq_true, if_false]
    rw [processImagesGo_single_error res msg k images 0, hzero]
  refine ⟨by rw [hrun], ?_, ?_, ?_⟩
  · rw [hrun]
    simp only [List.length_map]
    exact length_filter_ne_range images.length k hk
  · rw [hrun]
    show ((List.range images.length).flatMap fun i =>
        TraceEvent.decode i :: TraceEvent.dispatch i ::
          (if i = k then [TraceEvent.itemError i msg]
           else [TraceEvent.itemDone i])).filter isErrorEvent =
      [TraceEvent.itemError k msg]
    rw [filter_flatMap]
    have hg : (fun i => (TraceEvent.decode i :: TraceEvent.dispatch i ::
          (if i = k then [TraceEvent.itemError i msg]
           else [TraceEvent.itemDone i])).filter isErrorEvent) =
        (fun i => if i = k then [TraceEvent.itemError i msg] else []) := by
      funext i
      by_cases hi : i = k <;> simp [hi, List.filter_cons, isErrorEvent]
    rw [hg, flatMap_single images.length k hk _ (fun i hi => by simp [hi])]
    simp
  · rw [hrun]
    show ((List.range images.length).flatMap fun i =>
        TraceEvent.decode i :: TraceEvent.dispatch i ::
          (if i = k then [TraceEvent.itemError i msg]
           else [TraceEvent.itemDone i])).filter isDoneEvent =
      ((List.range images.length).filter (fun i => i != k)).map TraceEvent.itemDone
    rw [filter_flatMap]
    have hg : (fun i => (TraceEvent.decode i :: TraceEvent.dispatch i ::
          (if i = k then [TraceEvent.itemError i msg]
           else [TraceEvent.itemDone i])).filter isDoneEvent) =
        (fun i => if (i != k) then [TraceEvent.itemDone i] else []) := by
      funext i
      by_cases hi : i = k <;> simp [hi, List.filter_cons, isDoneEvent]
    rw [hg, flatMap_filter_map]

/-- Witness for the C4 theorem at a concrete input: three items, the
second one failing. -/
theorem processImages_single_failure_witness :
    (processImages [sampleItem, sampleItem, sampleItem] plainConfig
        (fun i => if i = 1 then ItemOutcome.err "boom" else ItemOutcome.ok (sampleResult i))
        (fun _ => false)).1 =
      ((List.range 3).filter (fun i => i != 1)).map sampleResult ∧
    (processImages [sampleItem, sampleItem, sampleItem] plainConfig
        (fun i => if i = 1 then ItemOutcome.err "boom" else ItemOutcome.ok (sampleResult i))
        (fun _ => false)).1.length = 3 - 1 ∧
    (processImages [sampleItem, sampleItem, sampleItem] plainConfig
        (fun i => if i = 1 then ItemOutcome.err "boom" else ItemOutcome.ok (sampleResult i))
        (fun _ => false)).2.filter isErrorEvent = [TraceEvent.itemError 1 "boom"] ∧
    (processImages [sampleItem, sampleItem, sampleItem] plainConfig
        (fun i => if i = 1 then ItemOutcome.err "boom" else ItemOutcome.ok (sampleResult i))
        (fun _ => false)).2.filter isDoneEvent =
      ((List.range 3).filter (fun i => i != 1)).map TraceEvent.itemDone := by
  have h := processImages_single_failure [sampleItem, sampleItem, sampleItem] plainConfig
    sampleResult "boom" 1 (by decide)
  simpa using h

end Framr

namespace Framr

theorem processImagesGo_cancel_take (outcome : ℕ → ItemOutcome) (k : ℕ) :
    ∀ (l : List ImageFile) (s : ℕ),
      processImagesGo outcome (fun i => decide (k ≤ i)) l s =
        processImagesGo outcome (fun _ => false) (l.take (k - s)) s := by
  intro l
  induction l with
  | nil => intro s; simp [processImagesGo, List.take_nil]
  | cons a t ih =>
    intro s
    by_cases hks : k ≤ s
    · have h0 : k - s = 0 := by omega
      rw [h0]
      simp [processImagesGo, hks]
    · have h1 : k - s = (k - (s + 1)) + 1 := by omega
      rw [h1, List.take_succ_cons]
      have hd : decide (k ≤ s) = false := by simp [hks]
      cases ho : outcome s <;> simp [processImagesGo, hd, ho, ih (s + 1)]

theorem processImagesGo_event_bound (outcome : ℕ → ItemOutcome) (cancelled : ℕ → Bool) :
    ∀ (l : List ImageFile) (s : ℕ) (e : TraceEvent),
      e ∈ (processImagesGo outcome cancelled l s).2 → eventIndex e < s + l.length := by
  intro l
  induction l with
  | nil => intro s e h; simp [processImagesGo] at h
  | cons a t ih =>
    intro s e h
    rw [processImagesGo] at h
    by_cases hc : cancelled s
    · rw [if_pos hc] at h
      simp at h
    · rw [if_neg hc] at h
      cases ho : outcome s <;> rw [ho] at h <;>
        simp only [List.mem_cons] at h <;>
        rcases h with h | h | h | h
      all_goals first
        | (subst h; simp only [eventIndex, List.length_cons]; omega)
        | (have hb := ih (s + 1) e h; simp only [List.length_cons] at hb ⊢; omega)

theorem processImagesGo_all_ok (outcome : ℕ → ItemOutcome) (res : ℕ → ProcessingResult) :
    ∀ (l : List ImageFile) (s : ℕ),
      (∀ j, j < l.length → outcome (s + j) = ItemOutcome.ok (res (s + j))) →
      (processImagesGo outcome (fun _ => false) l s).1 =
        (List.range l.length).map (fun j => res (s + j)) := by
  intro l
  induction l with
  | nil => intro s _; simp [processImagesGo]
  | cons a t ih =>
    intro s hok
    have h0 : outcome s = ItemOutcome.ok (res s) := by
      have := hok 0 (by simp)
      simpa using this
    have hrec := ih (s + 1) (fun j hj => by
      have := hok (j + 1) (by simpa using Nat.succ_lt_succ hj)
      rw [show s + (j + 1) = (s + 1) + j by omega] at this
      exact this)
    rw [List.length_cons, List.range_succ_eq_map, List.map_cons, List.map_map]
    simp only [processImagesGo, h0]
    rw [hrec]
    refine congrArg₂ List.cons (by simp) ?_
    apply List.map_congr_left
    intro x _
    simp only [Function.comp]
    congr 1
    omega

/-- Claim C5.  Cancellation is observed only at item boundaries: when the
cancelled flag becomes true exactly for the boundary checks at positions
k and later, the run behaves exactly like a run over the first k items
only; the decode and dispatch of item k never appear in the trace, and
when the first k items all succeed the run returns exactly their k
results in order. -/
theorem processImages_cancel_at_boundary (images : List ImageFile)
    (config : ProcessingConfig) (outcome : ℕ → ItemOutcome)
    (res : ℕ → ProcessingResult) (k : ℕ)
    (hk : k ≤ images.length)
    (hok : ∀ i, i < k → outcome i = ItemOutcome.ok (res i)) :
    processImages images config outcome (fun i => decide (k ≤ i)) =
      processImages (images.take k) config outcome (fun _ => false) ∧
    TraceEvent.decode k ∉ (processImages images config outcome (fun i => decide (k ≤ i))).2 ∧
    TraceEvent.dispatch k ∉ (processImages images config outcome (fun i => decide (k ≤ i))).2 ∧
    (processImages images config outcome (fun i => decide (k ≤ i))).1 =
      (List.range k).map res := by
  have htakelen : (images.take k).length = k := by
    rw [List.length_take]
    omega
  have hmain : processImages images config outcome (fun i => decide (k ≤ i)) =
      processImages (images.take k) config outcome (fun _ => false) := by
    cases images with
    | nil =>
      have hk0 : k = 0 := by simpa using hk
      subst hk0
      rfl
    | cons a t =>
      cases Nat.eq_zero_or_pos k with
      | inl h0 =>
        subst h0
        simp [processImages, processImagesGo]
      | inr hpos =>
        have hcons : (a :: t).take k = a :: t.take (k - 1) := by
          cases k with
          | zero => omega
          | succ n => simp
        rw [processImages, processImages, hcons]
        show processImagesGo outcome (fun i => decide (k ≤ i)) (a :: t) 0 =
          processImagesGo outcome (fun _ => false) (a :: t.take (k - 1)) 0
        rw [processImagesGo_cancel_take outcome k (a :: t) 0, Nat.sub_zero, hcons]
  have hbound : ∀ e, e ∈ (processImages images config outcome
      (fun i => decide (k ≤ i))).2 → eventIndex e < k := by
    intro e he
    rw [hmain] at he
    rw [processImages] at he
    by_cases hemp : (images.take k).isEmpty
    · rw [if_pos hemp] at he
      simp at he
    · rw [if_neg hemp] at he
      have := processImagesGo_event_bound outcome (fun _ => false) (images.take k) 0 e he
      omega
  refine ⟨hmain, ?_, ?_, ?_⟩
  · intro hmem
    have := hbound _ hmem
    simp [eventIndex] at this
  · intro hmem
    have := hbound _ hmem
    simp [eventIndex] at this
  · rw [hmain, processImages]
    by_cases hemp : (images.take k).isEmpty
    · rw [if_pos hemp]
      have : k = 0 := by
        rw [List.isEmpty_iff] at hemp
        rw [hemp] at htakelen
        simpa using htakelen.symm
      subst this
      simp
    · rw [if_neg hemp]
      have hres := processImagesGo_all_ok outcome res (images.take k) 0
        (fun j hj => by
          have hjk : j < k := by omega
          simpa using hok j hjk)
      rw [hres, htakelen]
      apply List.map_congr_left
      intro x _
      simp

/-- Witness for the C5 theorem at a concrete input: three items, cancel
requested once two have completed. -/
theorem processImages_cancel_at_boundary_witness :
    processImages [sampleItem, sampleItem, sampleItem] plainConfig
        (fun i => ItemOutcome.ok (sampleResult i)) (fun i => decide (2 ≤ i)) =
      processImages ([sampleItem, sampleItem, sampleItem].take 2) plainConfig
        (fun i => ItemOutcome.ok (sampleResult i)) (fun _ => false) ∧
    TraceEvent.decode 2 ∉ (processImages [sampleItem, sampleItem, sampleItem] plainConfig
        (fun i => ItemOutcome.ok (sampleResult i)) (fun i => decide (2 ≤ i))).2 ∧
    TraceEvent.dispatch 2 ∉ (processImages [sampleItem, sampleItem, sampleItem] plainConfig
        (fun i => ItemOutcome.ok (sampleResult i)) (fun i => decide (2 ≤ i))).2 ∧
    (processImages [sampleItem, sampleItem, sampleItem] plainConfig
        (fun i => ItemOutcome.ok (sampleResult i)) (fun i => decide (2 ≤ i))).1 =
      (List.range 2).map sampleResult :=
  processImages_cancel_at_boundary [sampleItem, sampleItem, sampleItem] plainConfig
    (fun i => ItemOutcome.ok (sampleResult i)) sampleResult 2
    (by decide) (fun i _ => rfl)

end Framr

namespace Framr

theorem truthy_some_zero : truthy (some 0) = false := by
  simp [truthy]

theorem convertTarget_some_zero (o : ℚ) (p : Bool) :
    convertTarget o p (some 0) = some 0 := by
  simp [convertTarget, truthy]

theorem convertTarget_none (o : ℚ) (p : Bool) :
    convertTarget o p none = none := by
  simp [convertTarget, truthy]

/-- Claim C6.  With aspect-aware true (and positive dimensions, where the
rational model coincides with the floating-point source): a wide image
keeps the magnitude on top and bottom and scales left and right by the
aspect ratio; a tall image keeps it on left and right and scales top and
bottom by its inverse; a square image gets it on all four sides.  The
magnitude is Math.round of min(width, height) times border width over 100
for percent unit, or the border width itself for pixels. -/
theorem calculateBorderSize_aspect_aware (w h : ℚ) (b : BorderSettings)
    (hw : 0 < w) (hh : 0 < h) (ha : b.aspectAware = true) (m : ℚ)
    (hm : m = if b.widthUnit = WidthUnit.percent
        then (jround (min w h * b.width / 100) : ℚ) else b.width) :
    (1 < w / h → calculateBorderSize w h b =
      { top := m, right := (jround (m * (w / h)) : ℚ),
        bottom := m, left := (jround (m * (w / h)) : ℚ) }) ∧
    (w / h < 1 → calculateBorderSize w h b =
      { top := (jround (m / (w / h)) : ℚ), right := m,
        bottom := (jround (m / (w / h)) : ℚ), left := m }) ∧
    (w / h = 1 → calculateBorderSize w h b =
      { top := m, right := m, bottom := m, left := m }) := by
  have hbs : (if b.widthUnit = WidthUnit.percent
      then (jround (min w h * (b.width / 100)) : ℚ) else b.width) = m := by
    rw [hm, mul_div_assoc]
  refine ⟨?_, ?_, ?_⟩
  · intro hc
    simp only [calculateBorderSize, ha, if_true, hbs]
    rw [if_pos hc]
  · intro hc
    have hn1 : ¬ (1 < w / h) := by linarith
    simp only [calculateBorderSize, ha, if_true, hbs]
    rw [if_neg hn1, if_pos hc]
  · intro hc
    have hn1 : ¬ (1 < w / h) := by rw [hc]; exact lt_irrefl 1
    have hn2 : ¬ (w / h < 1) := by rw [hc]; exact lt_irrefl 1
    simp only [calculateBorderSize, ha, if_true, hbs]
    rw [if_neg hn1, if_neg hn2]

/-- Witness for the C6 theorem: a 200 by 100 image with a 10 percent
aspect-aware border. -/
theorem calculateBorderSize_aspect_aware_witness :
    calculateBorderSize 200 100
      { width := 10, widthUnit := WidthUnit.percent, color := "#000000",
        aspectAware := true } =
      { top := 10, right := 20, bottom := 10, left := 20 } := by
  have h := (calculateBorderSize_aspect_aware 200 100
    { width := 10, widthUnit := WidthUnit.percent, color := "#000000",
      aspectAware := true }
    (by norm_num) (by norm_num) rfl 10
    (by norm_num [jround_eq_floor, min_def])).1 (by norm_num)
  rw [h]
  norm_num [jround_eq_floor]

/-- Claim C7, counterexample.  With targets 5 by 10 on a 10 by 100000
image, the dominant ratio rounds the width to 0, and the final
value-or-original fallback silently replaces it by the original width 10,
which exceeds the requested width 5: the output is not the rounded
min-ratio scaling and the fit-inside bound fails. -/
theorem fit_inside_zero_fallback_violation :
    calculateOutputDimensions 10 100000
      { enabled := true, width := some 5, height := some 10,
        unit := WidthUnit.px, maintainAspect := true } = (10, 10) ∧
    (jround ((10 : ℚ) * min ((5 : ℚ) / 10) ((10 : ℚ) / 100000)) : ℚ) = 0 ∧
    (10 : ℚ) > 5 := by
  refine ⟨?_, ?_, by norm_num⟩
  · norm_num [calculateOutputDimensions, convertTarget, applyAspect, orDefault,
      truthy_some, truthy_none, px_beq_percent, jround_eq_floor, bne_iff_ne, min_def]
  · norm_num [jround_eq_floor, min_def]

/-- Claim C7, amended.  With resize enabled, maintainAspect true, both
targets given (truthy after percent conversion) and positive originals:
the output applies the smaller of the two implied ratios to both original
dimensions and rounds each, except that a rounded dimension equal to 0 is
silently replaced by the corresponding original dimension; whenever a
converted target is an integer, the rounded min-ratio dimension never
exceeds that target. -/
theorem calculateOutputDimensions_fit_inside (ow oh tw th : ℚ) (r : ResizeSettings)
    (how : 0 < ow) (hoh : 0 < oh)
    (he : r.enabled = true) (hma : r.maintainAspect = true)
    (htw : convertTarget ow (r.unit == WidthUnit.percent) r.width = some tw)
    (hth : convertTarget oh (r.unit == WidthUnit.percent) r.height = some th)
    (htw0 : tw ≠ 0) (hth0 : th ≠ 0) :
    calculateOutputDimensions ow oh r =
      ((if (jround (ow * min (tw / ow) (th / oh)) : ℚ) = 0 then ow
        else (jround (ow * min (tw / ow) (th / oh)) : ℚ)),
       (if (jround (oh * min (tw / ow) (th / oh)) : ℚ) = 0 then oh
        else (jround (oh * min (tw / ow) (th / oh)) : ℚ))) ∧
    (∀ mz : ℤ, tw = (mz : ℚ) →
      (jround (ow * min (tw / ow) (th / oh)) : ℚ) ≤ tw) ∧
    (∀ nz : ℤ, th = (nz : ℚ) →
      (jround (oh * min (tw / ow) (th / oh)) : ℚ) ≤ th) := by
  have htwT : truthy (some tw) = true := by simp [truthy, htw0]
  have hthT : truthy (some th) = true := by simp [truthy, hth0]
  refine ⟨?_, ?_, ?_⟩
  · simp only [calculateOutputDimensions, he, Bool.not_true, Bool.false_eq_true,
      if_false, htw, hth, applyAspect, hma, if_true, htwT, hthT, Bool.not_true,
      Bool.and_false, Bool.false_and, Bool.and_self, Option.getD_some,
      orDefault_some]
  · intro mz hmz
    have hmin : min (tw / ow) (th / oh) ≤ tw / ow := min_le_left _ _
    have hx : ow * min (tw / ow) (th / oh) ≤ tw := by
      have h2 : ow * min (tw / ow) (th / oh) ≤ ow * (tw / ow) :=
        mul_le_mul_of_nonneg_left hmin (le_of_lt how)
      have h3 : ow * (tw / ow) = tw := by
        field_simp
      linarith
    rw [jround_eq_floor]
    have hfloor : ⌊ow * min (tw / ow) (th / oh) + 1/2⌋ ≤ mz := by
      have hstep : ⌊ow * min (tw / ow) (th / oh) + 1/2⌋ ≤ ⌊(mz : ℚ) + 1/2⌋ :=
        Int.floor_le_floor (by rw [← hmz]; linarith)
      rwa [Int.floor_int_add, show ⌊(1/2 : ℚ)⌋ = 0 by norm_num, add_zero] at hstep
    have hc2 : ((⌊ow * min (tw / ow) (th / oh) + 1/2⌋ : ℤ) : ℚ) ≤ (mz : ℚ) := by
      exact_mod_cast hfloor
    rw [← hmz] at hc2
    exact hc2
  · intro nz hnz
    have hmin : min (tw / ow) (th / oh) ≤ th / oh := min_le_right _ _
    have hx : oh * min (tw / ow) (th / oh) ≤ th := by
      have h2 : oh * min (tw / ow) (th / oh) ≤ oh * (th / oh) :=
        mul_le_mul_of_nonneg_left hmin (le_of_lt hoh)
      have h3 : oh * (th / oh) = th := by
        field_simp
      linarith
    rw [jround_eq_floor]
    have hfloor : ⌊oh * min (tw / ow) (th / oh) + 1/2⌋ ≤ nz := by
      have hstep : ⌊oh * min (tw / ow) (th / oh) + 1/2⌋ ≤ ⌊(nz : ℚ) + 1/2⌋ :=
        Int.floor_le_floor (by rw [← hnz]; linarith)
      rwa [Int.floor_int_add, show ⌊(1/2 : ℚ)⌋ = 0 by norm_num, add_zero] at hstep
    have hc2 : ((⌊oh * min (tw / ow) (th / oh) + 1/2⌋ : ℤ) : ℚ) ≤ (nz : ℚ) := by
      exact_mod_cast hfloor
    rw [← hnz] at hc2
    exact hc2

/-- Witness for the C7 theorem: fit-inside on a 4000 by 3000 image with
targets 1000 by 1500. -/
theorem calculateOutputDimensions_fit_inside_witness :
    calculateOutputDimensions 4000 3000
      { enabled := true, width := some 1000, height := some 1500,
        unit := WidthUnit.px, maintainAspect := true } = (1000, 750) ∧
    (jround ((4000 : ℚ) * min ((1000 : ℚ) / 4000) ((1500 : ℚ) / 3000)) : ℚ) ≤ 1000 := by
  obtain ⟨h1, h2, h3⟩ := calculateOutputDimensions_fit_inside 4000 3000 1000 1500
    { enabled := true, width := some 1000, height := some 1500,
      unit := WidthUnit.px, maintainAspect := true }
    (by norm_num) (by norm_num) rfl rfl rfl rfl (by norm_num) (by norm_num)
  constructor
  · rw [h1]
    norm_num [jround_eq_floor, min_def]
  · exact h2 1000 (by norm_num)

/-- Claim C10, counterexample.  A zero target width with maintainAspect
and a given height yields the aspect-derived width 2000, not the original
width 4000 as the claim asserts. -/
theorem zero_target_aspect_derived :
    calculateOutputDimensions 4000 3000
      { enabled := true, width := some 0, height := some 1500,
        unit := WidthUnit.px, maintainAspect := true } = (2000, 1500) ∧
    (2000 : ℚ) ≠ 4000 := by
  refine ⟨?_, by norm_num⟩
  norm_num [calculateOutputDimensions, convertTarget, applyAspect, orDefault,
    truthy_some, truthy_none, px_beq_percent, jround_eq_floor, bne_iff_ne]

/-- Claim C10, amended.  A target equal to 0 behaves exactly like an
omitted target in every branch (percent conversion, aspect derivation and
the final fallback), and the result is never a zero dimension when the
originals are nonzero; but the value produced for a zero or omitted
target is the original dimension only when no aspect derivation applies
- with maintainAspect and the other target given it is the aspect-derived
value instead. -/
theorem calculateOutputDimensions_zero_like_omitted (ow oh : ℚ) (r : ResizeSettings) :
    calculateOutputDimensions ow oh { r with width := some 0 } =
      calculateOutputDimensions ow oh { r with width := none } ∧
    calculateOutputDimensions ow oh { r with height := some 0 } =
      calculateOutputDimensions ow oh { r with height := none } ∧
    (ow ≠ 0 → oh ≠ 0 → (calculateOutputDimensions ow oh r).1 ≠ 0 ∧
      (calculateOutputDimensions ow oh r).2 ≠ 0) := by
  refine ⟨?_, ?_, ?_⟩
  · by_cases hen : r.enabled
    · simp only [calculateOutputDimensions, hen, Bool.not_true, Bool.false_eq_true,
        if_false, convertTarget_some_zero, convertTarget_none]
      generalize convertTarget oh (r.unit == WidthUnit.percent) r.height = tH
      by_cases hm : r.maintainAspect
      · by_cases hth : truthy tH = true
        · simp [applyAspect, hm, hth, truthy_some_zero, truthy_none]
        · simp only [Bool.not_eq_true] at hth
          simp [applyAspect, hm, hth, truthy_some_zero, truthy_none,
            orDefault_some, orDefault_none]
      · simp only [Bool.not_eq_true] at hm
        simp [applyAspect, hm, orDefault_some, orDefault_none]
    · simp only [Bool.not_eq_true] at hen
      simp [calculateOutputDimensions, hen]
  · by_cases hen : r.enabled
    · simp only [calculateOutputDimensions, hen, Bool.not_true, Bool.false_eq_true,
        if_false, convertTarget_some_zero, convertTarget_none]
      generalize convertTarget ow (r.unit == WidthUnit.percent) r.width = tW
      by_cases hm : r.maintainAspect
      · by_cases htw : truthy tW = true
        · simp [applyAspect, hm, htw, truthy_some_zero, truthy_none]
        · simp only [Bool.not_eq_true] at htw
          simp [applyAspect, hm, htw, truthy_some_zero, truthy_none,
            orDefault_some, orDefault_none]
      · simp only [Bool.not_eq_true] at hm
        simp [applyAspect, hm, orDefault_some, orDefault_none]
    · simp only [Bool.not_eq_true] at hen
      simp [calculateOutputDimensions, hen]
  · intro hw0 hh0
    by_cases hen : r.enabled
    · simp only [calculateOutputDimensions, hen, Bool.not_true, Bool.false_eq_true,
        if_false]
      exact ⟨orDefault_ne_zero _ _ hw0, orDefault_ne_zero _ _ hh0⟩
    · simp only [Bool.not_eq_true] at hen
      simp [calculateOutputDimensions, hen]
      exact ⟨hw0, hh0⟩

/-- Witness for the C10 theorem at a concrete input. -/
theorem zero_like_omitted_witness :
    calculateOutputDimensions 4000 3000 { resizeBoth with width := some 0 } =
      calculateOutputDimensions 4000 3000 { resizeBoth with width := none } ∧
    (calculateOutputDimensions 4000 3000 resizeBoth).1 ≠ 0 ∧
    (calculateOutputDimensions 4000 3000 resizeBoth).2 ≠ 0 := by
  obtain ⟨h1, h2, h3⟩ := calculateOutputDimensions_zero_like_omitted 4000 3000 resizeBoth
  have h4 := h3 (by norm_num) (by norm_num)
  exact ⟨h1, h4.1, h4.2⟩

end Framr
